import Mathlib

/-!
Shallow embedding of the coroutine examples repository
(CoroutinesCommon/coroutines.cpp, the moveable-CoTask variant, and the
std::generator example).

Modelling conventions:
* A C++ awaiter returned by a customization point is modelled by `Awaiter`;
  `std::suspend_always` is `Awaiter.suspendAlways`.
* The per-coroutine promise record (`Promise<T, U>` with members `x_ : T`
  and `y_ : U`) is `Promise T U`; the slots are `Option`s so that "the body
  has not yet written the slot" is observable (in C++ the members are
  default-initialized or uninitialized until `yield_value` / `return_value`
  writes them).
* A coroutine frame suspended at some suspension point is a state of an
  explicit state machine; `Machine.step` runs the body from one suspension
  point to the next and returns the values the body printed in between.
  `Machine.isDone` is `handle.done()`, i.e. "suspended at final_suspend".
* `CoTask` owns an optional frame (`none` models a null handle);
  `CoTask.resume` is the literal translation of the C++ `resume` member.
* `unsigned` locals are `Nat` with arithmetic mod `2 ^ 32`.
-/

/-- Result type of an awaiter as far as these examples observe it:
`std::suspend_always` suspends, `std::suspend_never` does not. -/
inductive Awaiter where
  | suspendAlways
  | suspendNever
deriving DecidableEq, Repr

/-- `await_ready` of the awaiter: `suspend_always` reports not-ready
(so the coroutine suspends), `suspend_never` reports ready. -/
def Awaiter.awaitReady : Awaiter → Bool
  | .suspendAlways => false
  | .suspendNever => true

/-- Outcome of the `unhandled_exception` customization point: the three
behaviours a promise type can implement in C++. -/
inductive ExceptionOutcome where
  | terminateProcess
  | rethrowToCaller
  | storeForLater
deriving DecidableEq, Repr

/-- `PromiseBase::initial_suspend` returns `std::suspend_always{}`. -/
def initial_suspend : Awaiter := .suspendAlways

/-- `PromiseBase::final_suspend` returns `std::suspend_always{}`. -/
def final_suspend : Awaiter := .suspendAlways

/-- `PromiseBase::unhandled_exception` calls `std::terminate()`. -/
def unhandled_exception : ExceptionOutcome := .terminateProcess

/-- The promise record `Promise<T, U>`: one yielded-value slot `x_ : T`
and one returned-value slot `y_ : U` (both `Option` so an unwritten slot
is observable). -/
structure Promise (T U : Type) where
  x_ : Option T
  y_ : Option U
deriving DecidableEq, Repr

/-- `Promise::yield_value(const T& x)`: stores `x` in `x_` and returns
`std::suspend_always{}`. -/
def Promise.yield_value {T U : Type} (p : Promise T U) (x : T) :
    Promise T U × Awaiter :=
  ({ p with x_ := some x }, .suspendAlways)

/-- `Promise::return_value(const U& y)`: stores `y` in `y_`. -/
def Promise.return_value {T U : Type} (p : Promise T U) (y : U) :
    Promise T U :=
  { p with y_ := some y }

/-- `CoTask::get_value`: reads `handle_.promise().x_` (a pure read). -/
def Promise.get_value {T U : Type} (p : Promise T U) : Option T := p.x_

/-- `CoTask::get_result`: reads `handle_.promise().y_` (a pure read). -/
def Promise.get_result {T U : Type} (p : Promise T U) : Option U := p.y_

/-- A coroutine, seen from its handle: `step` resumes a suspended frame
and runs the body up to the next suspension point, returning the new frame
together with the values the body printed; `isDone` is `handle.done()`. -/
structure Machine (σ : Type) where
  step : σ → σ × List Int
  isDone : σ → Bool

/-- The `CoTask` wrapper: `handle_` is the owned coroutine handle, `none`
modelling a null (e.g. moved-from) handle. The frame state is stored by
value here since the model is pure. -/
structure CoTask (σ : Type) where
  handle_ : Option σ
deriving DecidableEq, Repr

/-- `CoTask::resume`:
`if (!handle_ || handle_.done()) return false; handle_.resume(); return !handle_.done();`
Returns the task (with the updated frame), the `bool` result, and the
values printed by the body during this resumption. -/
def CoTask.resume {σ : Type} (m : Machine σ) (t : CoTask σ) :
    CoTask σ × Bool × List Int :=
  match t.handle_ with
  | none => (t, false, [])
  | some f =>
    if m.isDone f then (t, false, [])
    else
      let r := m.step f
      (⟨some r.1⟩, !m.isDone r.1, r.2)

/-- `2 ^ 32`, the modulus of `unsigned` arithmetic. -/
def UINT_MOD : Nat := 2 ^ 32

/-- `static_cast<int>` of an `unsigned` value: reduce mod `2 ^ 32` and
reinterpret in two's complement. -/
def unsignedToInt (x : Nat) : Int :=
  let r := x % UINT_MOD
  if r < 2 ^ 31 then Int.ofNat r else Int.ofNat r - Int.ofNat UINT_MOD

/-!
### `co_await_int`

```
CoTask<Promise<void, void>> co_await_int() {
   unsigned x{};
   std::cout << x++ << '\n';
   co_await std::suspend_always{};
   std::cout << x << '\n';
   co_await std::suspend_always{};
}
```

Suspension points: pc 0 = initial_suspend (before the body, `x` not yet
initialized), pc 1 = first `co_await`, pc 2 = second `co_await`,
pc 3 = final_suspend (done). `Promise<void, void>` has no slots.
-/

/-- Frame of `co_await_int`: suspension-point counter and the local `x`. -/
structure AwaitFrame where
  pc : Nat
  x : Nat
deriving DecidableEq, Repr

/-- One resumption of `co_await_int`, from each suspension point to the
next. From pc 0 the body initializes `x` to 0, prints it and
post-increments; from pc 1 it prints `x`; from pc 2 it falls off the end
(`return_void`, then final_suspend). -/
def co_await_int_step : AwaitFrame → AwaitFrame × List Int
  | ⟨0, _⟩ =>
    let x : Nat := 0
    (⟨1, (x + 1) % UINT_MOD⟩, [Int.ofNat x])
  | ⟨1, x⟩ => (⟨2, x⟩, [Int.ofNat x])
  | ⟨_, x⟩ => (⟨3, x⟩, [])

/-- The `co_await_int` coroutine as a machine; done at pc 3. -/
def co_await_int_machine : Machine AwaitFrame :=
  ⟨co_await_int_step, fun f => f.pc == 3⟩

/-- Calling `co_await_int()`: initial_suspend is suspend_always, so the
returned task is suspended at pc 0 with nothing run yet. -/
def co_await_int_task : CoTask AwaitFrame := ⟨some ⟨0, 0⟩⟩

/-!
### `co_yield_int`

```
CoTask<Promise<unsigned, void>> co_yield_int() {
   unsigned x{};
   co_yield x++;
   co_yield x;
}
```

pc 0 = initial_suspend, pc 1 = first `co_yield`, pc 2 = second `co_yield`,
pc 3 = final_suspend (done). The promise is `Promise Nat Unit` with the
`y_` slot never written (the specialization calls `return_void`).
-/

/-- Frame of `co_yield_int`: suspension point, local `x`, promise. -/
structure YieldFrame where
  pc : Nat
  x : Nat
  promise : Promise Nat Unit
deriving DecidableEq, Repr

/-- One resumption of `co_yield_int`. `co_yield e` is
`co_await promise.yield_value(e)`. -/
def co_yield_int_step : YieldFrame → YieldFrame × List Int
  | ⟨0, _, p⟩ =>
    let x : Nat := 0
    (⟨1, (x + 1) % UINT_MOD, (p.yield_value x).1⟩, [])
  | ⟨1, x, p⟩ => (⟨2, x, (p.yield_value x).1⟩, [])
  | ⟨_, x, p⟩ => (⟨3, x, p⟩, [])

/-- The `co_yield_int` coroutine as a machine; done at pc 3. -/
def co_yield_int_machine : Machine YieldFrame :=
  ⟨co_yield_int_step, fun f => f.pc == 3⟩

/-- Calling `co_yield_int()`: suspended at pc 0, slots unwritten. -/
def co_yield_int_task : CoTask YieldFrame := ⟨some ⟨0, 0, ⟨none, none⟩⟩⟩

/-!
### `co_return_int`

```
CoTask<Promise<unsigned, int>> co_return_int() {
   unsigned x{};
   co_yield x++;
   co_return static_cast<int>(x);
}
```

pc 0 = initial_suspend, pc 1 = the `co_yield`, pc 2 = final_suspend
(done); `co_return e` is `promise.return_value(e)` followed by
final_suspend.
-/

/-- Frame of `co_return_int`: suspension point, local `x`, promise. -/
structure ReturnFrame where
  pc : Nat
  x : Nat
  promise : Promise Nat Int
deriving DecidableEq, Repr

/-- One resumption of `co_return_int`. -/
def co_return_int_step : ReturnFrame → ReturnFrame × List Int
  | ⟨0, _, p⟩ =>
    let x : Nat := 0
    (⟨1, (x + 1) % UINT_MOD, (p.yield_value x).1⟩, [])
  | ⟨1, x, p⟩ => (⟨2, x, p.return_value (unsignedToInt x)⟩, [])
  | ⟨_, x, p⟩ => (⟨2, x, p⟩, [])

/-- The `co_return_int` coroutine as a machine; done at pc 2. -/
def co_return_int_machine : Machine ReturnFrame :=
  ⟨co_return_int_step, fun f => f.pc == 2⟩

/-- Calling `co_return_int()`: suspended at pc 0, slots unwritten. -/
def co_return_int_task : CoTask ReturnFrame := ⟨some ⟨0, 0, ⟨none, none⟩⟩⟩

/-!
### The driver loops in `main`

Each example is driven by `while (cpf.resume()) { <loop body> }`: the
values printed during a resumption (by the coroutine body) come first,
then, if `resume` returned true, whatever the loop body prints
(`get_value` for the yielding examples, nothing for `co_await_int`).
-/

/-- `while (t.resume()) { print (body frame) }`, with `fuel` bounding the
number of iterations; returns the printed values and the final task. -/
def pollLoop {σ : Type} (m : Machine σ) (body : σ → List Int) :
    CoTask σ → Nat → List Int × CoTask σ
  | t, 0 => ([], t)
  | t, fuel + 1 =>
    let r := CoTask.resume m t
    if r.2.1 then
      let bodyOut := match r.1.handle_ with
        | some f => body f
        | none => []
      let rest := pollLoop m body r.1 fuel
      (r.2.2 ++ bodyOut ++ rest.1, rest.2)
    else (r.2.2, r.1)

/-- The values printed by the first block of `main`:
`auto cpf = co_await_int(); while (cpf.resume()) {}`. -/
def co_await_int_run : List Int :=
  (pollLoop co_await_int_machine (fun _ => []) co_await_int_task 10).1

/-- The values printed by the second block of `main`:
`while (cpf.resume()) { std::cout << cpf.get_value() << '\n'; }`. -/
def co_yield_int_run : List Int :=
  (pollLoop co_yield_int_machine
    (fun f => (f.promise.get_value.map Int.ofNat).toList)
    co_yield_int_task 10).1

/-- The values printed by the third block of `main`: the `get_value` loop
followed by one `get_result` print. -/
def co_return_int_run : List Int :=
  let r := pollLoop co_return_int_machine
    (fun f => (f.promise.get_value.map Int.ofNat).toList)
    co_return_int_task 10
  r.1 ++ (match r.2.handle_ with
    | some f => f.promise.get_result.toList
    | none => [])

/-!
### The `std::generator` example

```
template <typename T>
std::generator<T> sequence(T n) {
   T x{};
   while (x < n) { co_yield x++; }
}
```

instantiated at `T = int` in `main` (`sequence(10)`); `int` is modelled by
`Int` (no overflow can occur: `x` only grows while `x < n`).
-/

/-- The values yielded by the `while (x < n) co_yield x++;` loop of
`sequence`, starting from local value `x`. -/
def seqFrom (x n : Int) : List Int :=
  if h : x < n then x :: seqFrom (x + 1) n else []
termination_by (n - x).toNat
decreasing_by omega

/-- The complete yield sequence of `sequence(n)` (local starts at `T{}`,
i.e. 0). -/
def sequence_yields (n : Int) : List Int := seqFrom 0 n

/-- The values printed by `print_range(sequence(10))` in `main`. -/
def sequence_print_run : List Int := sequence_yields 10

/-!
### Ownership of coroutine handles (moveable `CoTask` variant)

The moveable variant of `CoTask` has, besides the constructor and
destructor above:

```
CoTask(const CoTask&) = delete;                 // no copying
CoTask(CoTask&& ct) noexcept
   : handle_{std::exchange(ct.handle_, nullptr)} {}
CoTask& operator=(const CoTask&) = delete;
CoTask& operator=(CoTask&& ct) {
   if (this != &ct) {
      if (handle_) { handle_.destroy(); }
      handle_ = std::exchange(ct.handle_, nullptr);
   }
   return *this;
}
~CoTask() { if (handle_) { handle_.destroy(); } }
```

We model the lifetime story with a small trace semantics: a heap of
handles (alive or destroyed) and a set of wrapper variables each holding
an optional handle. Wrappers and handles are identified by `Nat` ids.
There is no copy operation, mirroring the deleted copy members.
-/

/-- The ownership state: `nextHandle` is the id of the next coroutine
frame to be created, `alive` the ids of frames not yet destroyed, and
`wrappers` an association list mapping each live `CoTask` wrapper to the
handle it holds (`none` = null/moved-from handle). -/
structure OwnState where
  nextHandle : Nat
  alive : List Nat
  wrappers : List (Nat × Option Nat)
deriving DecidableEq, Repr

/-- Lookup a wrapper's held handle; outer `none` means no wrapper with
that id is alive. -/
def lookupW : List (Nat × Option Nat) → Nat → Option (Option Nat)
  | [], _ => none
  | p :: ps, w => if p.1 = w then some p.2 else lookupW ps w

/-- Overwrite the handle held by wrapper `w`. -/
def setW : List (Nat × Option Nat) → Nat → Option Nat →
    List (Nat × Option Nat)
  | [], _, _ => []
  | p :: ps, w, h => (if p.1 = w then (p.1, h) else p) :: setW ps w h

/-- The wrapper operations of the moveable `CoTask`. There is no copy
constructor and no copy assignment: both are `= delete`. -/
inductive OwnOp where
  | callCoroutine (w : Nat)
  | destructor (w : Nat)
  | moveConstruct (w src : Nat)
  | moveAssign (dst src : Nat)
deriving DecidableEq, Repr

/-- One wrapper operation on the ownership state, as the C++ executes it:
* `callCoroutine w`: a coroutine call creates a fresh frame and a fresh
  wrapper `w` owning its handle (ill-formed reuse of a live wrapper id is
  a no-op);
* `destructor w`: `~CoTask` destroys the held handle, if any, and the
  wrapper disappears;
* `moveConstruct w src`: the move constructor exchanges `src`'s handle
  into the new wrapper `w`, leaving `src` null — nothing is destroyed;
* `moveAssign dst src`: for `dst != src`, destroys `dst`'s old handle (if
  any) and exchanges `src`'s handle into `dst`; self-assignment is a
  no-op thanks to the `this != &ct` guard. -/
def ownStep (s : OwnState) : OwnOp → OwnState
  | .callCoroutine w =>
    if (lookupW s.wrappers w).isSome then s
    else
      ⟨s.nextHandle + 1, s.nextHandle :: s.alive,
        (w, some s.nextHandle) :: s.wrappers⟩
  | .destructor w =>
    match lookupW s.wrappers w with
    | none => s
    | some oh =>
      ⟨s.nextHandle,
        match oh with
        | some h => s.alive.filter (fun a => a != h)
        | none => s.alive,
        s.wrappers.filter (fun p => p.1 != w)⟩
  | .moveConstruct w src =>
    if (lookupW s.wrappers w).isSome then s
    else
      match lookupW s.wrappers src with
      | none => s
      | some oh => ⟨s.nextHandle, s.alive, (w, oh) :: setW s.wrappers src none⟩
  | .moveAssign dst src =>
    if dst = src then s
    else
      match lookupW s.wrappers dst, lookupW s.wrappers src with
      | some dh, some sh =>
        ⟨s.nextHandle,
          match dh with
          | some h => s.alive.filter (fun a => a != h)
          | none => s.alive,
          setW (setW s.wrappers dst sh) src none⟩
      | _, _ => s

/-- Run a list of wrapper operations. -/
def ownExec (s : OwnState) (ops : List OwnOp) : OwnState :=
  ops.foldl ownStep s

/-- The state before any coroutine has been called. -/
def ownInit : OwnState := ⟨0, [], []⟩

/-- The ownership invariant: wrapper ids are distinct, every held handle
id is below `nextHandle`, and no two wrappers hold the same handle. -/
def OwnInv (s : OwnState) : Prop :=
  (s.wrappers.map Prod.fst).Nodup ∧
  (∀ p ∈ s.wrappers, ∀ h : Nat, p.2 = some h → h < s.nextHandle) ∧
  (∀ p ∈ s.wrappers, ∀ q ∈ s.wrappers, p.1 ≠ q.1 →
    ∀ h : Nat, p.2 = some h → q.2 ≠ some h)

/-- Does wrapper operation `op` destroy handle `h` in state `s`? Exactly
two cases do: the destructor of a wrapper holding `h`, and a move
assignment (between distinct live wrappers) whose target holds `h`. -/
def killsHandle (s : OwnState) (op : OwnOp) (h : Nat) : Prop :=
  match op with
  | .destructor w => lookupW s.wrappers w = some (some h)
  | .moveAssign dst src =>
    dst ≠ src ∧ lookupW s.wrappers dst = some (some h) ∧
      (lookupW s.wrappers src).isSome
  | _ => False

instance (s : OwnState) (op : OwnOp) (h : Nat) :
    Decidable (killsHandle s op h) := by
  unfold killsHandle
  cases op <;> infer_instance

/-- The property claimed of move construction read literally: moving from
a wrapper that holds handle `h` destroys `h`. (Refuted below: the move
constructor transfers the handle without destroying it.) -/
def movedFromDestroysHandle : Prop :=
  ∀ (s : OwnState) (w src h : Nat),
    lookupW s.wrappers src = some (some h) →
    h ∉ (ownStep s (.moveConstruct w src)).alive

/-!
### Slot effects (which customization point a resumption invokes)

Reading each body off the source: a resumption segment performs at most
one promise-slot mutation, and it is always a `yield_value` or a
`return_value` call written in the body (`co_yield e` or `co_return e`).
-/

/-- The promise-slot mutation a resumption segment performs. -/
inductive SlotEffect (T U : Type) where
  | noEffect
  | yielded (x : T)
  | returned (y : U)
deriving DecidableEq, Repr

/-- Apply a slot effect through the corresponding customization point. -/
def applySlotEffect {T U : Type} (e : SlotEffect T U) (p : Promise T U) :
    Promise T U :=
  match e with
  | .noEffect => p
  | .yielded x => (p.yield_value x).1
  | .returned y => p.return_value y

/-- The customization-point call made by each segment of `co_yield_int`:
pc 0 runs `co_yield x++` with `x = 0`; pc 1 runs `co_yield x`; the final
segment only runs `return_void`, which touches no slot. -/
def co_yield_int_effect : YieldFrame → SlotEffect Nat Unit
  | ⟨0, _, _⟩ => .yielded 0
  | ⟨1, x, _⟩ => .yielded x
  | _ => .noEffect

/-- The customization-point call made by each segment of `co_return_int`:
pc 0 runs `co_yield x++` with `x = 0`; pc 1 runs
`co_return static_cast<int>(x)`. -/
def co_return_int_effect : ReturnFrame → SlotEffect Nat Int
  | ⟨0, _, _⟩ => .yielded 0
  | ⟨1, x, _⟩ => .returned (unsignedToInt x)
  | _ => .noEffect

/-!
### Classification of suspension points

Each machine state is a suspension point of the coroutine; we classify
them: the state produced by the call itself (initial_suspend, before any
body code), the states at explicit `co_await` / `co_yield` expressions of
the body, and the state at final_suspend (after the body).
-/

/-- The kind of a suspension point. -/
inductive SuspKind where
  | initialPoint
  | bodyPoint
  | finalPoint
deriving DecidableEq, Repr

/-- Suspension points of `co_await_int`: pc 1 and pc 2 are the two
explicit `co_await std::suspend_always{}` expressions. -/
def awaitKind (f : AwaitFrame) : Option SuspKind :=
  match f.pc with
  | 0 => some .initialPoint
  | 1 => some .bodyPoint
  | 2 => some .bodyPoint
  | 3 => some .finalPoint
  | _ => none

/-- Suspension points of `co_yield_int`: pc 1 and pc 2 are the two
explicit `co_yield` expressions. -/
def yieldKind (f : YieldFrame) : Option SuspKind :=
  match f.pc with
  | 0 => some .initialPoint
  | 1 => some .bodyPoint
  | 2 => some .bodyPoint
  | 3 => some .finalPoint
  | _ => none

/-- Suspension points of `co_return_int`: pc 1 is the explicit
`co_yield` expression. -/
def returnKind (f : ReturnFrame) : Option SuspKind :=
  match f.pc with
  | 0 => some .initialPoint
  | 1 => some .bodyPoint
  | 2 => some .finalPoint
  | _ => none

/-- `n` synchronous calls of `resume` by the caller. -/
def iterResume {σ : Type} (m : Machine σ) (t : CoTask σ) : Nat → CoTask σ
  | 0 => t
  | n + 1 => (CoTask.resume m (iterResume m t n)).1

/-- The frame of `co_await_int` after `n` resumes. -/
def awaitFrameAt : Nat → AwaitFrame
  | 0 => ⟨0, 0⟩
  | 1 => ⟨1, 1⟩
  | 2 => ⟨2, 1⟩
  | _ => ⟨3, 1⟩

/-- The frame of `co_yield_int` after `n` resumes. -/
def yieldFrameAt : Nat → YieldFrame
  | 0 => ⟨0, 0, ⟨none, none⟩⟩
  | 1 => ⟨1, 1, ⟨some 0, none⟩⟩
  | 2 => ⟨2, 1, ⟨some 1, none⟩⟩
  | _ => ⟨3, 1, ⟨some 1, none⟩⟩

/-- The frame of `co_return_int` after `n` resumes. -/
def returnFrameAt : Nat → ReturnFrame
  | 0 => ⟨0, 0, ⟨none, none⟩⟩
  | 1 => ⟨1, 1, ⟨some 0, none⟩⟩
  | _ => ⟨2, 1, ⟨some 0, some 1⟩⟩

/-- The task left by the third block of `main` when `get_result` is
read, i.e. after the `while (cpf.resume())` loop has exited. -/
def co_return_int_final : CoTask ReturnFrame :=
  (pollLoop co_return_int_machine
    (fun f => (f.promise.get_value.map Int.ofNat).toList)
    co_return_int_task 10).2

/-! ## Theorems -/

/-- Closed form of the `sequence` loop: starting from local value `x` it
yields `x, x+1, ...` up to but excluding `n`. -/
theorem seqFrom_eq (n x : Int) :
    seqFrom x n = (List.range (n - x).toNat).map (fun i => x + Int.ofNat i) := by
  generalize hk : (n - x).toNat = k
  induction k generalizing x with
  | zero =>
    rw [seqFrom]
    have hx : ¬ x < n := by omega
    simp [hx]
  | succ k ih =>
    rw [seqFrom]
    have hx : x < n := by omega
    have hk2 : (n - (x + 1)).toNat = k := by omega
    rw [dif_pos hx, ih (x + 1) hk2]
    rw [List.range_succ_eq_map, List.map_cons, List.map_map]
    refine congrArg₂ _ (by simp) ?_
    apply List.map_congr_left
    intro a _
    simp [Function.comp]
    ring

/-- The yields of `sequence(n)` are `0, 1, ..., n-1`. -/
theorem sequence_yields_eq (n : Int) :
    sequence_yields n = (List.range n.toNat).map Int.ofNat := by
  rw [sequence_yields, seqFrom_eq]
  simp

/-- C1: each example prints its hand-computed sequence: `co_await_int`
prints 0 then 1; the driver loop of `co_yield_int` prints 0 then 1; the
driver of `co_return_int` prints the yielded 0 then the returned result 1;
and `print_range(sequence(10))` prints 0,1,2,3,4,5,6,7,8,9 in order. -/
theorem printed_sequences_match :
    co_await_int_run = [0, 1] ∧
    co_yield_int_run = [0, 1] ∧
    co_return_int_run = [0, 1] ∧
    sequence_print_run = [0, 1, 2, 3, 4, 5, 6, 7, 8, 9] := by
  refine ⟨rfl, rfl, rfl, ?_⟩
  rw [sequence_print_run, sequence_yields_eq]
  decide

/-- C8: for every integral `n`, `sequence(n)` yields exactly
`0, 1, ..., n-1` (so exactly `n` values when `n > 0`), strictly
increasing, and nothing at all when `n ≤ 0`. -/
theorem sequence_yields_range (n : Int) :
    sequence_yields n = (List.range n.toNat).map Int.ofNat ∧
    List.Pairwise (fun a b : Int => a < b) (sequence_yields n) ∧
    (0 < n → ((sequence_yields n).length : Int) = n) ∧
    (n ≤ 0 → sequence_yields n = []) := by
  refine ⟨sequence_yields_eq n, ?_, ?_, ?_⟩
  · rw [sequence_yields_eq, List.pairwise_map]
    exact (List.pairwise_lt_range n.toNat).imp (fun hab => Int.ofNat_lt.mpr hab)
  · intro hn
    rw [sequence_yields_eq]
    simp
    omega
  · intro hn
    rw [sequence_yields_eq]
    have : n.toNat = 0 := by omega
    simp [this]

/-- Witness for `sequence_yields_range` at `n = 3` and `n = -1`. -/
theorem sequence_yields_range_witness :
    ((sequence_yields 3).length : Int) = 3 ∧ sequence_yields (-1) = [] :=
  ⟨(sequence_yields_range 3).2.2.1 (by decide),
   (sequence_yields_range (-1)).2.2.2 (by decide)⟩

/-- C9: `CoTask::resume` on a null handle or a completed coroutine
returns false and changes nothing; otherwise it resumes the coroutine
once and returns true exactly when the coroutine is still not done. -/
theorem resume_spec {σ : Type} (m : Machine σ) (t : CoTask σ) :
    (t.handle_ = none → CoTask.resume m t = (t, false, [])) ∧
    (∀ f, t.handle_ = some f → m.isDone f = true →
      CoTask.resume m t = (t, false, [])) ∧
    (∀ f, t.handle_ = some f → m.isDone f = false →
      CoTask.resume m t =
        (⟨some (m.step f).1⟩, !m.isDone (m.step f).1, (m.step f).2)) := by
  obtain ⟨h⟩ := t
  refine ⟨fun hn => ?_, fun f hf hdone => ?_, fun f hf hrun => ?_⟩
  · subst hn; rfl
  · cases hf; simp [CoTask.resume, hdone]
  · cases hf; simp [CoTask.resume, hrun]

/-- Witness for `resume_spec`: the null-handle case, the completed case
(final frame of `co_yield_int`), and a live resumption (the first resume
of `co_yield_int`, which stores 0 in the promise). -/
theorem resume_spec_witness :
    CoTask.resume co_yield_int_machine ⟨none⟩ = (⟨none⟩, false, []) ∧
    CoTask.resume co_yield_int_machine ⟨some ⟨3, 1, ⟨some 1, none⟩⟩⟩ =
      (⟨some ⟨3, 1, ⟨some 1, none⟩⟩⟩, false, []) ∧
    CoTask.resume co_yield_int_machine co_yield_int_task =
      (⟨some ⟨1, 1, ⟨some 0, none⟩⟩⟩, true, []) := by
  refine ⟨(resume_spec _ _).1 rfl,
    (resume_spec _ _).2.1 _ rfl (by decide), ?_⟩
  have h := (resume_spec co_yield_int_machine co_yield_int_task).2.2
    ⟨0, 0, ⟨none, none⟩⟩ rfl (by decide)
  rw [h]
  decide

/-- Trajectory of `co_await_int` under the polling caller. -/
theorem awaitTraj (n : Nat) :
    iterResume co_await_int_machine co_await_int_task n =
      ⟨some (awaitFrameAt n)⟩ := by
  induction n with
  | zero => rfl
  | succ n ih =>
    rw [iterResume, ih]
    match n with
    | 0 => rfl
    | 1 => rfl
    | 2 => rfl
    | m + 3 => rfl

/-- Trajectory of `co_yield_int` under the polling caller. -/
theorem yieldTraj (n : Nat) :
    iterResume co_yield_int_machine co_yield_int_task n =
      ⟨some (yieldFrameAt n)⟩ := by
  induction n with
  | zero => rfl
  | succ n ih =>
    rw [iterResume, ih]
    match n with
    | 0 => rfl
    | 1 => rfl
    | 2 => rfl
    | m + 3 => rfl

/-- Trajectory of `co_return_int` under the polling caller. -/
theorem returnTraj (n : Nat) :
    iterResume co_return_int_machine co_return_int_task n =
      ⟨some (returnFrameAt n)⟩ := by
  induction n with
  | zero => rfl
  | succ n ih =>
    rw [iterResume, ih]
    match n with
    | 0 => rfl
    | 1 => rfl
    | m + 2 => rfl

/-- C4: the promise types implement suspend-at-start, suspend on every
yield after storing the value, and suspend-at-end: `initial_suspend` and
`final_suspend` both return `suspend_always` (whose `await_ready` is
false, so the coroutine really suspends and no body code runs before the
first resume), `yield_value` stores the value and returns
`suspend_always`, and — final_suspend having suspended rather than
destroyed the frame — the frame of `co_return_int` is still alive, done,
and holds the result 1 when `main` reads `get_result` after the loop. -/
theorem suspension_protocol :
    initial_suspend = Awaiter.suspendAlways ∧
    initial_suspend.awaitReady = false ∧
    final_suspend = Awaiter.suspendAlways ∧
    final_suspend.awaitReady = false ∧
    (∀ (T U : Type) (p : Promise T U) (x : T),
      (p.yield_value x).2 = Awaiter.suspendAlways ∧
      (p.yield_value x).2.awaitReady = false ∧
      (p.yield_value x).1.x_ = some x) ∧
    (∃ f : ReturnFrame, co_return_int_final.handle_ = some f ∧
      co_return_int_machine.isDone f = true ∧
      f.promise.get_result = some 1) := by
  refine ⟨rfl, rfl, rfl, rfl, fun T U p x => ⟨rfl, rfl, rfl⟩, ?_⟩
  exact ⟨⟨2, 1, ⟨some 0, some 1⟩⟩, by decide, by decide, by decide⟩

/-- C5: the `unhandled_exception` customization point shared by all the
promise types terminates the process; it neither rethrows to the caller
nor stores the exception for later, so no recovery, retry or
error-reporting path exists. -/
theorem exception_is_fatal :
    unhandled_exception = ExceptionOutcome.terminateProcess ∧
    unhandled_exception ≠ ExceptionOutcome.rethrowToCaller ∧
    unhandled_exception ≠ ExceptionOutcome.storeForLater := by
  refine ⟨rfl, ?_, ?_⟩ <;> decide

/-- C6: the promise record has exactly one yielded-value slot `x_` and
one returned-value slot `y_`; `yield_value` writes only `x_`,
`return_value` writes only `y_`, `get_value` and `get_result` are pure
reads, and every resumption segment of the yielding examples changes the
promise exactly by the `yield_value` / `return_value` call its body
makes (`applySlotEffect` of its declared effect) — in particular the
segments that make no such call leave both slots unchanged. -/
theorem slots_mutated_only_via_customization_points :
    (∀ (T U : Type) (p : Promise T U) (x : T),
      (p.yield_value x).1.x_ = some x ∧ (p.yield_value x).1.y_ = p.y_) ∧
    (∀ (T U : Type) (p : Promise T U) (y : U),
      (p.return_value y).y_ = some y ∧ (p.return_value y).x_ = p.x_) ∧
    (∀ (T U : Type) (p : Promise T U),
      p.get_value = p.x_ ∧ p.get_result = p.y_) ∧
    (∀ f : YieldFrame, (co_yield_int_step f).1.promise =
      applySlotEffect (co_yield_int_effect f) f.promise) ∧
    (∀ f : ReturnFrame, (co_return_int_step f).1.promise =
      applySlotEffect (co_return_int_effect f) f.promise) := by
  refine ⟨fun T U p x => ⟨rfl, rfl⟩, fun T U p y => ⟨rfl, rfl⟩,
    fun T U p => ⟨rfl, rfl⟩, fun f => ?_, fun f => ?_⟩
  · obtain ⟨pc, x, p⟩ := f
    match pc with
    | 0 => rfl
    | 1 => rfl
    | m + 2 => rfl
  · obtain ⟨pc, x, p⟩ := f
    match pc with
    | 0 => rfl
    | 1 => rfl
    | m + 2 => rfl

/-- C7: under the synchronous polling caller (`iterResume` models the
caller's repeated `resume` calls), every suspended state of every example
is classified: the state after 0 resumes is the initial_suspend point
(before the body), every intermediate state is one of the explicit
`co_await` / `co_yield` expressions of the body, and once the body ends
the coroutine sits at final_suspend; no other suspension point exists. -/
theorem suspension_only_at_explicit_points (n : Nat) :
    (∃ f, (iterResume co_await_int_machine co_await_int_task n).handle_ =
        some f ∧
      awaitKind f = some (if n = 0 then .initialPoint
        else if n ≤ 2 then .bodyPoint else .finalPoint)) ∧
    (∃ f, (iterResume co_yield_int_machine co_yield_int_task n).handle_ =
        some f ∧
      yieldKind f = some (if n = 0 then .initialPoint
        else if n ≤ 2 then .bodyPoint else .finalPoint)) ∧
    (∃ f, (iterResume co_return_int_machine co_return_int_task n).handle_ =
        some f ∧
      returnKind f = some (if n = 0 then .initialPoint
        else if n ≤ 1 then .bodyPoint else .finalPoint)) := by
  refine ⟨⟨awaitFrameAt n, by rw [awaitTraj], ?_⟩,
    ⟨yieldFrameAt n, by rw [yieldTraj], ?_⟩,
    ⟨returnFrameAt n, by rw [returnTraj], ?_⟩⟩
  · match n with
    | 0 => rfl
    | 1 => rfl
    | 2 => rfl
    | m + 3 => rfl
  · match n with
    | 0 => rfl
    | 1 => rfl
    | 2 => rfl
    | m + 3 => rfl
  · match n with
    | 0 => rfl
    | 1 => rfl
    | m + 2 => rfl

/-- C2 counterexample: moving from a wrapper does not destroy the handle
it held. Concretely: call a coroutine into wrapper 0, then move-construct
wrapper 1 from it; wrapper 0 held handle 0 and is now moved-from, yet
handle 0 is still alive (it was transferred to wrapper 1, not
destroyed). -/
theorem moved_from_does_not_destroy : ¬ movedFromDestroysHandle := by
  intro hclaim
  have h := hclaim (ownExec ownInit [.callCoroutine 0]) 1 0 0 (by decide)
  exact h (by decide)

/-- C2 (amended): for a live handle `h`, a wrapper operation destroys `h`
exactly when it is the destructor of a wrapper holding `h` or a move
assignment (between distinct wrappers) whose target holds `h`; in
particular move construction, which only transfers the handle out of the
source wrapper, never destroys it. -/
theorem handle_destroyed_iff (s : OwnState) (op : OwnOp) (h : Nat)
    (halive : h ∈ s.alive) :
    h ∉ (ownStep s op).alive ↔ killsHandle s op h := by
  cases op with
  | callCoroutine w =>
    simp only [ownStep, killsHandle]
    split
    · simp [halive]
    · simp [halive]
  | destructor w =>
    simp only [ownStep, killsHandle]
    cases hl : lookupW s.wrappers w with
    | none => simp [halive]
    | some oh =>
      cases oh with
      | none => simp [halive]
      | some h2 =>
        simp [halive, List.mem_filter, bne_iff_ne]
        tauto
  | moveConstruct w src =>
    simp only [ownStep, killsHandle]
    split
    · simp [halive]
    · cases hl : lookupW s.wrappers src with
      | none => simp [halive]
      | some oh => simp [halive]
  | moveAssign dst src =>
    simp only [ownStep, killsHandle]
    by_cases hds : dst = src
    · simp [hds, halive]
    · rw [if_neg hds]
      cases hd : lookupW s.wrappers dst with
      | none => simp [halive, hd, hds]
      | some dh =>
        cases hs2 : lookupW s.wrappers src with
        | none => simp [halive, hd, hs2, hds]
        | some sh =>
          cases dh with
          | none => simp [halive, hd, hs2, hds]
          | some h2 =>
            simp [halive, hd, hs2, hds, List.mem_filter, bne_iff_ne]
            tauto

/-- Witness for `handle_destroyed_iff`: in the one-wrapper state, the
destructor of wrapper 0 (which holds handle 0) destroys handle 0. -/
theorem handle_destroyed_iff_witness :
    0 ∉ (ownStep (ownExec ownInit [.callCoroutine 0])
        (.destructor 0)).alive ↔
      killsHandle (ownExec ownInit [.callCoroutine 0]) (.destructor 0) 0 :=
  handle_destroyed_iff _ _ _ (by decide)

/-- A wrapper id absent from the association list looks up to `none`. -/
theorem lookupW_eq_none_iff (ws : List (Nat × Option Nat)) (w : Nat) :
    lookupW ws w = none ↔ ∀ p ∈ ws, p.1 ≠ w := by
  induction ws with
  | nil => simp [lookupW]
  | cons p ps ih =>
    by_cases hp : p.1 = w <;> simp [lookupW, hp, ih]

/-- A successful lookup comes from an entry of the list. -/
theorem exists_of_lookupW_eq_some {ws : List (Nat × Option Nat)} {w : Nat}
    {oh : Option Nat} (hl : lookupW ws w = some oh) :
    ∃ p ∈ ws, p.1 = w ∧ p.2 = oh := by
  induction ws with
  | nil => simp [lookupW] at hl
  | cons p ps ih =>
    by_cases hp : p.1 = w
    · rw [lookupW, if_pos hp] at hl
      exact ⟨p, List.mem_cons_self p ps, hp, Option.some.inj hl⟩
    · rw [lookupW, if_neg hp] at hl
      obtain ⟨q, hq, hqw, hqo⟩ := ih hl
      exact ⟨q, List.mem_cons_of_mem p hq, hqw, hqo⟩

/-- Members of `setW ws w h` are the members of `ws` with the entry for
`w` overwritten. -/
theorem mem_setW {ws : List (Nat × Option Nat)} {w : Nat} {h : Option Nat}
    {q : Nat × Option Nat} (hq : q ∈ setW ws w h) :
    ∃ p ∈ ws, q = if p.1 = w then (p.1, h) else p := by
  induction ws with
  | nil => simp [setW] at hq
  | cons p ps ih =>
    rw [setW] at hq
    rcases List.mem_cons.mp hq with hq1 | hq2
    · exact ⟨p, List.mem_cons_self p ps, hq1⟩
    · obtain ⟨r, hr, he⟩ := ih hq2
      exact ⟨r, List.mem_cons_of_mem p hr, he⟩

/-- `setW` preserves the wrapper-id column. -/
theorem map_fst_setW (ws : List (Nat × Option Nat)) (w : Nat)
    (h : Option Nat) : (setW ws w h).map Prod.fst = ws.map Prod.fst := by
  induction ws with
  | nil => rfl
  | cons p ps ih =>
    rw [setW, List.map_cons, List.map_cons, ih]
    by_cases hp : p.1 = w <;> simp [hp]

/-- After `setW ws w h`, wrapper `w` (if present) holds `h`. -/
theorem lookupW_setW_self {ws : List (Nat × Option Nat)} {w : Nat}
    (h : Option Nat) (hw : (lookupW ws w).isSome = true) :
    lookupW (setW ws w h) w = some h := by
  induction ws with
  | nil => simp [lookupW] at hw
  | cons p ps ih =>
    by_cases hp : p.1 = w
    · simp [lookupW, setW, hp]
    · rw [lookupW, if_neg hp] at hw
      simp [lookupW, setW, hp, ih hw]

/-- `setW ws w h` does not affect lookups of other wrappers. -/
theorem lookupW_setW_ne {ws : List (Nat × Option Nat)} {w v : Nat}
    (h : Option Nat) (hvw : v ≠ w) :
    lookupW (setW ws w h) v = lookupW ws v := by
  induction ws with
  | nil => rfl
  | cons p ps ih =>
    by_cases hp : p.1 = w
    · have hwv : ¬ w = v := fun he => hvw he.symm
      simp [lookupW, setW, hp, hwv, ih]
    · by_cases hv : p.1 = v <;> simp [lookupW, setW, hp, hv, hvw, ih]

/-- Each wrapper operation preserves the ownership invariant. -/
theorem ownStep_preserves_inv (s : OwnState) (op : OwnOp)
    (hinv : OwnInv s) : OwnInv (ownStep s op) := by
  obtain ⟨hnodup, hbound, hshare⟩ := hinv
  cases op with
  | callCoroutine w =>
    simp only [ownStep]
    split
    · exact ⟨hnodup, hbound, hshare⟩
    next hws =>
      have hkeys : ∀ p ∈ s.wrappers, p.1 ≠ w := by
        refine (lookupW_eq_none_iff _ _).1 ?_
        cases hl : lookupW s.wrappers w with
        | none => rfl
        | some oh => rw [hl] at hws; simp at hws
      refine ⟨?_, ?_, ?_⟩
      · rw [List.map_cons]
        refine List.nodup_cons.mpr ⟨?_, hnodup⟩
        rw [List.mem_map]
        rintro ⟨p, hp, hpw⟩
        exact hkeys p hp hpw
      · rintro p hp h0 hp2
        rcases List.mem_cons.mp hp with rfl | hp3
        · have : s.nextHandle = h0 := by simpa using hp2
          show h0 < s.nextHandle + 1
          omega
        · exact Nat.lt_succ_of_lt (hbound p hp3 h0 hp2)
      · rintro p hp q hq hpq h0 hp2 hq2
        rcases List.mem_cons.mp hp with rfl | hp3 <;>
          rcases List.mem_cons.mp hq with rfl | hq3
        · exact hpq rfl
        · have h1 : s.nextHandle = h0 := by simpa using hp2
          have h2 := hbound q hq3 h0 hq2
          omega
        · have h1 : s.nextHandle = h0 := by simpa using hq2
          have h2 := hbound p hp3 h0 hp2
          omega
        · exact hshare p hp3 q hq3 hpq h0 hp2 hq2
  | destructor w =>
    simp only [ownStep]
    cases hl : lookupW s.wrappers w with
    | none => exact ⟨hnodup, hbound, hshare⟩
    | some oh =>
      refine ⟨?_, ?_, ?_⟩
      · exact List.Nodup.sublist
          (List.Sublist.map Prod.fst (List.filter_sublist _)) hnodup
      · intro p hp
        exact hbound p (List.mem_of_mem_filter hp)
      · intro p hp q hq
        exact hshare p (List.mem_of_mem_filter hp) q (List.mem_of_mem_filter hq)
  | moveConstruct w src =>
    simp only [ownStep]
    split
    · exact ⟨hnodup, hbound, hshare⟩
    next hws =>
      cases hl : lookupW s.wrappers src with
      | none => exact ⟨hnodup, hbound, hshare⟩
      | some oh =>
        obtain ⟨e, he, hekey, hesnd⟩ := exists_of_lookupW_eq_some hl
        have hkeys : ∀ p ∈ s.wrappers, p.1 ≠ w := by
          refine (lookupW_eq_none_iff _ _).1 ?_
          cases hlw : lookupW s.wrappers w with
          | none => rfl
          | some oh2 => rw [hlw] at hws; simp at hws
        refine ⟨?_, ?_, ?_⟩
        · rw [List.map_cons, map_fst_setW]
          refine List.nodup_cons.mpr ⟨?_, hnodup⟩
          rw [List.mem_map]
          rintro ⟨p, hp, hpw⟩
          exact hkeys p hp hpw
        · rintro p hp h0 hp2
          rcases List.mem_cons.mp hp with rfl | hp3
          · exact hbound e he h0 (hesnd.trans hp2)
          · obtain ⟨p0, hp0, hpe⟩ := mem_setW hp3
            by_cases hps : p0.1 = src
            · rw [hpe] at hp2
              simp [hps] at hp2
            · rw [hpe] at hp2
              simp [hps] at hp2
              exact hbound p0 hp0 h0 hp2
        · rintro p hp q hq hpq h0 hp2 hq2
          rcases List.mem_cons.mp hp with rfl | hp3 <;>
            rcases List.mem_cons.mp hq with rfl | hq3
          · exact hpq rfl
          · obtain ⟨q0, hq0, hqe⟩ := mem_setW hq3
            by_cases hqs : q0.1 = src
            · rw [hqe] at hq2
              simp [hqs] at hq2
            · rw [hqe] at hq2
              simp [hqs] at hq2
              exact hshare e he q0 hq0
                (by rw [hekey]; exact fun hx => hqs hx.symm) h0
                (hesnd.trans hp2) hq2
          · obtain ⟨p0, hp0, hpe⟩ := mem_setW hp3
            by_cases hps : p0.1 = src
            · rw [hpe] at hp2
              simp [hps] at hp2
            · rw [hpe] at hp2
              simp [hps] at hp2
              exact hshare p0 hp0 e he
                (fun hx => hps (hx.trans hekey)) h0 hp2 (hesnd.trans hq2)
          · obtain ⟨p0, hp0, hpe⟩ := mem_setW hp3
            obtain ⟨q0, hq0, hqe⟩ := mem_setW hq3
            by_cases hqs : q0.1 = src
            · rw [hqe] at hq2
              simp [hqs] at hq2
            · rw [hqe] at hq2
              simp [hqs] at hq2
              by_cases hps : p0.1 = src
              · rw [hpe] at hp2
                simp [hps] at hp2
              · rw [hpe] at hp2
                simp [hps] at hp2
                have hp1 : p.1 = p0.1 := by
                  rw [hpe]
                  simp [hps]
                have hq1 : q.1 = q0.1 := by
                  rw [hqe]
                  simp [hqs]
                refine hshare p0 hp0 q0 hq0 ?_ h0 hp2 hq2
                rw [← hp1, ← hq1]
                exact hpq
  | moveAssign dst src =>
    simp only [ownStep]
    by_cases hds : dst = src
    · rw [if_pos hds]
      exact ⟨hnodup, hbound, hshare⟩
    · rw [if_neg hds]
      cases hd : lookupW s.wrappers dst with
      | none => exact ⟨hnodup, hbound, hshare⟩
      | some dh =>
        cases hs2 : lookupW s.wrappers src with
        | none => exact ⟨hnodup, hbound, hshare⟩
        | some sh =>
          obtain ⟨es, hes, heskey, hessnd⟩ := exists_of_lookupW_eq_some hs2
          have mem2 : ∀ {q : Nat × Option Nat},
              q ∈ setW (setW s.wrappers dst sh) src none →
              ∃ q0 ∈ s.wrappers,
                q = if q0.1 = src then (q0.1, none)
                  else if q0.1 = dst then (q0.1, sh) else q0 := by
            intro q hq
            obtain ⟨q1, hq1, he1⟩ := mem_setW hq
            obtain ⟨q0, hq0, he0⟩ := mem_setW hq1
            refine ⟨q0, hq0, ?_⟩
            have h3 : ¬ src = dst := fun he => hds he.symm
            by_cases h1 : q0.1 = dst
            · have h2 : ¬ q0.1 = src := by rw [h1]; exact hds
              rw [he1, he0]
              simp [h1, h2, hds]
            · by_cases h2 : q0.1 = src
              · rw [he1, he0]
                simp [h1, h2, h3]
              · rw [he1, he0]
                simp [h1, h2]
          refine ⟨?_, ?_, ?_⟩
          · rw [map_fst_setW, map_fst_setW]
            exact hnodup
          · rintro p hp h0 hp2
            obtain ⟨p0, hp0, hpe⟩ := mem2 hp
            by_cases h2 : p0.1 = src
            · rw [hpe] at hp2
              simp [h2] at hp2
            · by_cases h1 : p0.1 = dst
              · rw [hpe] at hp2
                simp [h1, h2, hds] at hp2
                exact hbound es hes h0 (hessnd.trans hp2)
              · rw [hpe] at hp2
                simp [h1, h2] at hp2
                exact hbound p0 hp0 h0 hp2
          · rintro p hp q hq hpq h0 hp2 hq2
            obtain ⟨p0, hp0, hpe⟩ := mem2 hp
            obtain ⟨q0, hq0, hqe⟩ := mem2 hq
            have hp1 : p.1 = p0.1 := by
              rw [hpe]
              by_cases a : p0.1 = src <;> by_cases b : p0.1 = dst <;>
                simp [a, b, hds]
            have hq1 : q.1 = q0.1 := by
              rw [hqe]
              by_cases a : q0.1 = src <;> by_cases b : q0.1 = dst <;>
                simp [a, b, hds]
            have hpq0 : p0.1 ≠ q0.1 := by
              rw [← hp1, ← hq1]
              exact hpq
            by_cases hps : p0.1 = src
            · rw [hpe] at hp2
              simp [hps] at hp2
            · by_cases hpd : p0.1 = dst
              · -- p holds sh (src's old handle)
                rw [hpe] at hp2
                simp [hps, hpd, hds] at hp2
                by_cases hqs : q0.1 = src
                · rw [hqe] at hq2
                  simp [hqs] at hq2
                · by_cases hqd : q0.1 = dst
                  · exact hpq0 (hpd.trans hqd.symm)
                  · rw [hqe] at hq2
                    simp [hqs, hqd] at hq2
                    exact hshare es hes q0 hq0
                      (by rw [heskey]; exact fun hx => hqs hx.symm) h0
                      (hessnd.trans hp2) hq2
              · -- p is an untouched entry
                rw [hpe] at hp2
                simp [hps, hpd] at hp2
                by_cases hqs : q0.1 = src
                · rw [hqe] at hq2
                  simp [hqs] at hq2
                · by_cases hqd : q0.1 = dst
                  · rw [hqe] at hq2
                    simp [hqs, hqd, hds] at hq2
                    exact hshare p0 hp0 es hes
                      (fun hx => hps (hx.trans heskey)) h0 hp2
                      (hessnd.trans hq2)
                  · rw [hqe] at hq2
                    simp [hqs, hqd] at hq2
                    exact hshare p0 hp0 q0 hq0 hpq0 h0 hp2 hq2

/-- Any run of wrapper operations preserves the ownership invariant. -/
theorem ownExec_preserves_inv (ops : List OwnOp) (s : OwnState)
    (hs : OwnInv s) : OwnInv (ownExec s ops) := by
  induction ops generalizing s with
  | nil => exact hs
  | cons op ops ih => exact ih (ownStep s op) (ownStep_preserves_inv s op hs)

/-- C3: there is at most one active owner of a coroutine handle at any
point: in every state reachable from the initial state by wrapper
operations (`OwnOp` has no copy operation, mirroring the deleted copy
members of `CoTask`) no two live wrappers hold the same handle, and
moving from a wrapper — by move construction or move assignment — leaves
the source wrapper holding no handle. -/
theorem at_most_one_owner (ops : List OwnOp) :
    OwnInv (ownExec ownInit ops) ∧
    (∀ (s : OwnState) (w src : Nat),
      (lookupW s.wrappers w).isSome = false →
      (lookupW s.wrappers src).isSome = true →
      lookupW (ownStep s (.moveConstruct w src)).wrappers src = some none) ∧
    (∀ (s : OwnState) (dst src : Nat), dst ≠ src →
      (lookupW s.wrappers dst).isSome = true →
      (lookupW s.wrappers src).isSome = true →
      lookupW (ownStep s (.moveAssign dst src)).wrappers src = some none) := by
  refine ⟨?_, ?_, ?_⟩
  · refine ownExec_preserves_inv ops ownInit ?_
    refine ⟨List.nodup_nil, ?_, ?_⟩ <;> intro p hp <;> simp [ownInit] at hp
  · intro s w src hw hsrc
    obtain ⟨sh, hsh⟩ := Option.isSome_iff_exists.mp hsrc
    have hw2 : lookupW s.wrappers w = none := by
      cases hl : lookupW s.wrappers w with
      | none => rfl
      | some oh => rw [hl] at hw; simp at hw
    have hws : w ≠ src := by
      intro he
      rw [he, hsh] at hw2
      exact Option.noConfusion hw2
    simp only [ownStep]
    rw [if_neg (by rw [hw2]; simp)]
    simp only [hsh]
    rw [lookupW, if_neg hws]
    exact lookupW_setW_self none hsrc
  · intro s dst src hds hdst hsrc
    obtain ⟨dh, hdh⟩ := Option.isSome_iff_exists.mp hdst
    obtain ⟨sh, hsh⟩ := Option.isSome_iff_exists.mp hsrc
    simp only [ownStep, if_neg hds, hdh, hsh]
    refine lookupW_setW_self none ?_
    rw [lookupW_setW_ne sh (fun he => hds he.symm)]
    exact hsrc

/-- Witness for `at_most_one_owner`: with two live wrappers 0 and 1, move
assigning from wrapper 1 into wrapper 0 leaves wrapper 1 holding no
handle; move constructing wrapper 1 from wrapper 0 leaves wrapper 0
holding no handle. -/
theorem at_most_one_owner_witness :
    lookupW (ownStep (ownExec ownInit [.callCoroutine 0, .callCoroutine 1])
        (.moveAssign 0 1)).wrappers 1 = some none ∧
    lookupW (ownStep (ownExec ownInit [.callCoroutine 0])
        (.moveConstruct 1 0)).wrappers 0 = some none :=
  ⟨(at_most_one_owner []).2.2
      (ownExec ownInit [.callCoroutine 0, .callCoroutine 1]) 0 1
      (by decide) (by decide) (by decide),
   (at_most_one_owner []).2.1 (ownExec ownInit [.callCoroutine 0]) 1 0
      (by decide) (by decide)⟩
